import Mathlib

/-!
Shallow embedding of `numbapro/cudadrv/autotune.py` (ptxas compile-info
parser, hardware limits tables, warp-occupancy calculator, AutoTuner
selection logic), with theorems checking the module's specification.

Modelling conventions:
* Python exceptions (KeyError, ZeroDivisionError, AssertionError) and the
  generator protocol's StopIteration are modelled with `Option`: a `none`
  result means the Python code raises.
* All numbers reaching the occupancy formula are non-negative integers, and
  every float produced by `ceil` / `floor` on them is an exact small value,
  so the float arithmetic is modelled exactly: intermediate block counts are
  naturals, and the final occupancy ratio `active_warps / warp_per_sm` is an
  exact fraction `Frac` (numerator and positive denominator).  Python
  compares these float ratios numerically; on the exact fractions involved
  that numeric comparison is rational comparison, modelled by
  cross-multiplication (`Frac.lt`, `Frac.le`).
* Python dicts are association lists; `dict(pairs)` lookup is
  last-write-wins (`dictGet`), and the occupancy dict has distinct keys so a
  plain `List.lookup` suffices for it.
-/

/-! ## Character and line helpers (Python str methods) -/

/-- Python's `\s` class for `str` patterns: space, tab, newline, carriage
return, vertical tab, form feed. -/
def isSpace (c : Char) : Bool :=
  c == ' ' || c == '\t' || c == '\n' || c == '\r' || c == '\x0b' || c == '\x0c'

/-- The single-quote character, written by code point to keep source plain. -/
def squote : Char := Char.ofNat 39

/-- Helper for `splitlines`: accumulates the current line (reversed). -/
def splitlinesGo : List Char → List Char → List (List Char)
  | [], cur => [cur.reverse]
  | '\r' :: '\n' :: rest, cur =>
      cur.reverse :: (if rest.isEmpty then [] else splitlinesGo rest [])
  | '\n' :: rest, cur =>
      cur.reverse :: (if rest.isEmpty then [] else splitlinesGo rest [])
  | '\r' :: rest, cur =>
      cur.reverse :: (if rest.isEmpty then [] else splitlinesGo rest [])
  | c :: rest, cur => splitlinesGo rest (c :: cur)

/-- Python `str.splitlines()`: splits on `\n`, `\r`, `\r\n`; a trailing line
break does not create an empty final line; the empty string gives `[]`. -/
def splitlines (s : List Char) : List (List Char) :=
  if s.isEmpty then [] else splitlinesGo s []

/-- Python `str.split(',')`: always at least one (possibly empty) field. -/
def splitComma : List Char → List (List Char)
  | [] => [[]]
  | ',' :: rest => [] :: splitComma rest
  | c :: rest =>
    match splitComma rest with
    | [] => [[c]]
    | s :: ss => (c :: s) :: ss

/-- Python `str.strip()` (strip whitespace at both ends). -/
def pystrip (s : List Char) : List Char :=
  ((s.dropWhile isSpace).reverse.dropWhile isSpace).reverse

/-- Python `str.rstrip(':')` (strip all trailing colons). -/
def rstripColons (s : List Char) : List Char :=
  (s.reverse.dropWhile (fun c => c == ':')).reverse

/-! ## Regex matchers

The module compiles five case-insensitive patterns in which every space of
the pattern text stands for `\s+` (`_sw` / `_regex` in the source).  Each is
specialised here as a matcher on char lists.  Greedy `\s+` / `\d+` runs are
modelled by maximal takes: in these patterns every maximal run is followed
by a token of a different character class, so the regex engine's
backtracking can never succeed with a shorter run. -/

/-- Consume a literal word case-insensitively (the literal is given in
lowercase); returns the rest of the input. -/
def dropLit : List Char → List Char → Option (List Char)
  | [], s => some s
  | _ :: _, [] => none
  | a :: as, c :: cs => if a == c.toLower then dropLit as cs else none

/-- Consume `\s+` (at least one whitespace char, maximal run). -/
def dropSpaces1 : List Char → Option (List Char)
  | [] => none
  | c :: cs => if isSpace c then some (cs.dropWhile isSpace) else none

/-- Core of `RE_LEAD` after the optional `ptxas ` group:
`info\s+:\s+Function\s+properties\s+for\s+`. -/
def matchLeadCore (s : List Char) : Option (List Char) := do
  let s ← dropLit ("info".toList) s
  let s ← dropSpaces1 s
  let s ← dropLit (":".toList) s
  let s ← dropSpaces1 s
  let s ← dropLit ("function".toList) s
  let s ← dropSpaces1 s
  let s ← dropLit ("properties".toList) s
  let s ← dropSpaces1 s
  let s ← dropLit ("for".toList) s
  dropSpaces1 s

/-- `RE_LEAD.match(ln)`: anchored match of
`^(?:ptxas\s+)?info\s+:\s+Function\s+properties\s+for\s+` (case-insensitive);
returns the input after the matched prefix (`ln[len(m.group(0)):]`).  The
optional group backtracks: if matching it does not let the rest succeed, the
match is retried without it. -/
def matchLead (s : List Char) : Option (List Char) :=
  match (do let t ← dropLit ("ptxas".toList) s; dropSpaces1 t) with
  | some t => (matchLeadCore t).orElse fun _ => matchLeadCore s
  | none => matchLeadCore s

/-- Numeric value of a digit run (`int` of the matched group). -/
def digitsVal (ds : List Char) : ℕ :=
  ds.foldl (fun a c => 10 * a + (c.toNat - 48)) 0

/-- Match `used\s+(?P<num>\d+)\s+registers` at the current position. -/
def matchRegHere (s : List Char) : Option ℕ :=
  (dropLit ("used".toList) s).bind fun s =>
  (dropSpaces1 s).bind fun s =>
  let ds := s.takeWhile Char.isDigit
  if ds.isEmpty then none else
  (dropSpaces1 (s.dropWhile Char.isDigit)).bind fun s =>
  (dropLit ("registers".toList) s).map fun _ => digitsVal ds

/-- Match `(?P<num>\d+)\s+(?:bytes\s+)?stack` at the current position. -/
def matchStackHere (s : List Char) : Option ℕ :=
  let ds := s.takeWhile Char.isDigit
  if ds.isEmpty then none else
  (dropSpaces1 (s.dropWhile Char.isDigit)).bind fun s =>
  (((dropLit ("bytes".toList) s).bind fun t =>
      (dropSpaces1 t).bind fun t => dropLit ("stack".toList) t).orElse fun _ =>
    dropLit ("stack".toList) s).map fun _ => digitsVal ds

/-- Match `(?P<num>\d+)\s+bytes\s+smem` at the current position. -/
def matchSharedHere (s : List Char) : Option ℕ :=
  let ds := s.takeWhile Char.isDigit
  if ds.isEmpty then none else
  (dropSpaces1 (s.dropWhile Char.isDigit)).bind fun s =>
  (dropLit ("bytes".toList) s).bind fun s =>
  (dropSpaces1 s).bind fun s =>
  (dropLit ("smem".toList) s).map fun _ => digitsVal ds

/-- Match `(?P<num>\d+)\s+bytes\s+lmem` at the current position. -/
def matchLocalHere (s : List Char) : Option ℕ :=
  let ds := s.takeWhile Char.isDigit
  if ds.isEmpty then none else
  (dropSpaces1 (s.dropWhile Char.isDigit)).bind fun s =>
  (dropLit ("bytes".toList) s).bind fun s =>
  (dropSpaces1 s).bind fun s =>
  (dropLit ("lmem".toList) s).map fun _ => digitsVal ds

/-- `regex.search(text)`: try the matcher at every start position, leftmost
success wins. -/
def searchWith (m : List Char → Option ℕ) : List Char → Option ℕ
  | [] => m []
  | c :: rest =>
    match m (c :: rest) with
    | some n => some n
    | none => searchWith m rest

/-! ## Resource records and the compile-info parser -/

/-- The four resource keys of the parser (`'local'` is a Lean keyword, so
that dict key is named `lmem` here). -/
inductive ResKey
  | reg
  | stack
  | shared
  | lmem
deriving DecidableEq

/-- The `resources` dict of a kernel block: keys are drawn from the fixed
set `reg`, `stack`, `shared`, `local`, so the dict is a record of optional
fields (`none` = key absent). -/
structure Resources where
  reg : Option ℕ := none
  stack : Option ℕ := none
  shared : Option ℕ := none
  lmem : Option ℕ := none
deriving DecidableEq

/-- The empty `resources = {}` dict. -/
def Resources.empty : Resources := {}

/-- `resources[k] = v`. -/
def Resources.set (r : Resources) : ResKey → ℕ → Resources
  | ResKey.reg, v => { r with reg := some v }
  | ResKey.stack, v => { r with stack := some v }
  | ResKey.shared, v => { r with shared := some v }
  | ResKey.lmem, v => { r with lmem := some v }

/-- `parse_resources(text)`: the four patterns are tried in the fixed order
reg, stack, shared, local; the first whose search succeeds gives the
`(key, value)` pair, else `None`. -/
def parse_resources (text : List Char) : Option (ResKey × ℕ) :=
  match searchWith matchRegHere text with
  | some n => some (ResKey.reg, n)
  | none =>
    match searchWith matchStackHere text with
    | some n => some (ResKey.stack, n)
    | none =>
      match searchWith matchSharedHere text with
      | some n => some (ResKey.shared, n)
      | none => (searchWith matchLocalHere text).map fun n => (ResKey.lmem, n)

/-- `parse_function_name(text)`: strip, drop trailing colons, unquote.  The
source asserts that a name starting with a single quote also ends with one;
a violated assert raises, modelled as `none`. -/
def parse_function_name (text : List Char) : Option (List Char) :=
  let name := rstripColons (pystrip text)
  match name with
  | [] => some []
  | c :: _ =>
    if c = squote then
      if name.getLast? = some squote then some ((name.drop 1).dropLast) else none
    else some name

/-- One resource line of a block: split on commas, apply `parse_resources`
to each clause in order, recording matches in the dict; the boolean is the
loop's `more` flag (at least one clause matched). -/
def applySections (ln : List Char) (res : Resources) : Resources × Bool :=
  (splitComma ln).foldl
    (fun acc section_ =>
      match parse_resources section_ with
      | none => acc
      | some (k, v) => (acc.1.set k v, true))
    (res, false)

/-- Control state of `gen_parse_compile_info`: scanning for a lead line, or
inside the resource block of kernel `fname` with the clauses seen so far. -/
inductive ParserState
  | scan : ParserState
  | block : List Char → Resources → ParserState

/-- The generator body of `gen_parse_compile_info`, one line at a time.
Faithful points of the source's control flow:
* in `scan`, a lead line whose quoted function name is unterminated raises
  (assert in `parse_function_name`) before the next `readline()`, so this
  yields `none` even when the lead line is the last line;
* a lead line that is the last line of the input is dropped: the
  `ln = readline()` between `parse_function_name` and the inner
  `try/finally` raises StopIteration before the yielding `finally` exists;
* in `block`, when a line matches no clause the source reads one more line
  and then breaks, so the terminator line itself is never checked as a lead
  line, and scanning resumes at the line after it;
* end of input inside a block yields the pair via the `finally` clause. -/
def runParse : ParserState → List (List Char) → Option (List (List Char × Resources))
  | ParserState.scan, [] => some []
  | ParserState.scan, ln :: rest =>
    match matchLead ln with
    | none => runParse ParserState.scan rest
    | some remaining =>
      match parse_function_name remaining with
      | none => none
      | some fname =>
        match rest with
        | [] => some []
        | _ :: _ => runParse (ParserState.block fname Resources.empty) rest
  | ParserState.block f res, [] => some [(f, res)]
  | ParserState.block f res, ln :: rest =>
    let p := applySections ln res
    match rest with
    | [] => some [(f, p.1)]
    | _ :: _ =>
      if p.2 then runParse (ParserState.block f p.1) rest
      else ((f, p.1) :: ·) <$> runParse ParserState.scan rest

/-- `gen_parse_compile_info(text)`: the list of yielded (name, resources)
pairs, or `none` if the generator raises. -/
def gen_parse_compile_info (text : List Char) : Option (List (List Char × Resources)) :=
  runParse ParserState.scan (splitlines text)

/-- `parse_compile_info(text) = dict(gen_parse_compile_info(text))`: the
dict is the yielded pair list, read through `dictGet` (last write wins). -/
def parse_compile_info (text : List Char) : Option (List (List Char × Resources)) :=
  gen_parse_compile_info text

/-- `dict(pairs)[k]` as an `Option`: the value of the last pair with key
`k`, `none` when the key is absent (Python KeyError). -/
def dictGet (pairs : List (List Char × Resources)) (k : List Char) : Option Resources :=
  ((pairs.filter fun p => p.1 == k).getLast?).map fun p => p.2

/-! ## Hardware limits tables -/

/-- The `reg_alloc_gran` field; only `'warp'` appears in the built-in
tables, and `compute_warp_occupancy` asserts it. -/
inductive RegAllocGran
  | warp
  | perblock
deriving DecidableEq

/-- One entry of the physical-limits tables (field names as in the source's
dict keys). -/
structure Limits where
  thread_per_warp : ℕ
  warp_per_sm : ℕ
  thread_per_sm : ℕ
  block_per_sm : ℕ
  registers : ℕ
  reg_alloc_unit : ℕ
  reg_alloc_gran : RegAllocGran
  reg_per_thread : ℕ
  smem_per_sm : ℕ
  smem_alloc_unit : ℕ
  warp_alloc_gran : ℕ
  max_block_size : ℕ
deriving DecidableEq

/-- `LIMITS_CC_20`. -/
def LIMITS_CC_20 : Limits :=
  { thread_per_warp := 32
    warp_per_sm := 48
    thread_per_sm := 1536
    block_per_sm := 8
    registers := 32768
    reg_alloc_unit := 64
    reg_alloc_gran := RegAllocGran.warp
    reg_per_thread := 63
    smem_per_sm := 49152
    smem_alloc_unit := 128
    warp_alloc_gran := 2
    max_block_size := 1024 }

/-- `LIMITS_CC_21 = LIMITS_CC_20`. -/
def LIMITS_CC_21 : Limits := LIMITS_CC_20

/-- `LIMITS_CC_30`. -/
def LIMITS_CC_30 : Limits :=
  { thread_per_warp := 32
    warp_per_sm := 64
    thread_per_sm := 2048
    block_per_sm := 16
    registers := 65535
    reg_alloc_unit := 256
    reg_alloc_gran := RegAllocGran.warp
    reg_per_thread := 63
    smem_per_sm := 49152
    smem_alloc_unit := 256
    warp_alloc_gran := 4
    max_block_size := 1024 }

/-- `LIMITS_CC_35`: a copy of CC 3.0 with a larger `reg_per_thread`. -/
def LIMITS_CC_35 : Limits := { LIMITS_CC_30 with reg_per_thread := 255 }

/-- `PHYSICAL_LIMITS` dict; `none` is a KeyError for an unsupported
compute capability. -/
def PHYSICAL_LIMITS (cc : ℕ × ℕ) : Option Limits :=
  if cc = (2, 0) then some LIMITS_CC_20
  else if cc = (2, 1) then some LIMITS_CC_21
  else if cc = (3, 0) then some LIMITS_CC_30
  else if cc = (3, 5) then some LIMITS_CC_35
  else none

/-! ## Occupancy calculator -/

/-- `ceil(x, s) = s * math.ceil(x / s)` on naturals, for `s > 0` (callers
guard `s = 0`, where Python's division raises). -/
def pyceil (x s : ℕ) : ℕ := s * ((x + s - 1) / s)

/-- An exact non-negative fraction with positive denominator: the value of
an occupancy ratio.  Python stores these as floats; on the small exact
ratios of this module, float comparison is rational comparison. -/
structure Frac where
  num : ℕ
  den : ℕ+
deriving DecidableEq

/-- Numeric `<` on fractions, by cross-multiplication. -/
def Frac.lt (a b : Frac) : Prop := a.num * (b.den : ℕ) < b.num * (a.den : ℕ)

instance (a b : Frac) : Decidable (Frac.lt a b) :=
  inferInstanceAs (Decidable (_ < _))

/-- Numeric `≤` on fractions, by cross-multiplication. -/
def Frac.le (a b : Frac) : Prop := a.num * (b.den : ℕ) ≤ b.num * (a.den : ℕ)

instance (a b : Frac) : Decidable (Frac.le a b) :=
  inferInstanceAs (Decidable (_ ≤ _))

/-- The rational value of a fraction (for specification statements). -/
def Frac.val (a : Frac) : ℚ := (a.num : ℚ) / ((a.den : ℕ) : ℚ)

/-- The reported limiting factor. -/
inductive Factor
  | warps
  | regs
  | smem
deriving DecidableEq

/-- `my_warp_per_block = ceil(tpb / limit_thread_per_warp)` (exact ceiling
of the true quotient; `w > 0` guarded by the caller). -/
def my_warp_per_block (tpb w : ℕ) : ℕ := (tpb + w - 1) / w

/-- `limit_blocks_due_to_warps = min(block_per_sm, floor(warp_per_sm /
my_warp_per_block))`. -/
def limit_blocks_due_to_warps (tpb : ℕ) (limits : Limits) : ℕ :=
  min limits.block_per_sm (limits.warp_per_sm / my_warp_per_block tpb limits.thread_per_warp)

/-- `c39 = floor(registers / ceil(reg * thread_per_warp, reg_alloc_unit),
warp_alloc_gran)`.  The floor of the true quotient `registers / c` stepped
by `g` equals the nested natural division `g * (registers / c / g)`. -/
def c39 (reg : ℕ) (limits : Limits) : ℕ :=
  limits.warp_alloc_gran *
    ((limits.registers / pyceil (reg * limits.thread_per_warp) limits.reg_alloc_unit) /
      limits.warp_alloc_gran)

/-- `limit_blocks_due_to_regs` (value of the conditional expression; the
caller guards the divisions that Python evaluates eagerly). -/
def limit_blocks_due_to_regs (tpb reg : ℕ) (limits : Limits) : ℕ :=
  if reg > limits.reg_per_thread then 0
  else if reg > 0 then c39 reg limits / my_warp_per_block tpb limits.thread_per_warp
  else limits.block_per_sm

/-- `limit_blocks_due_to_smem`, with `limit_total_smem = min(smem_per_sm,
smem_config)` and `my_smem_per_block = ceil(smem, smem_alloc_unit)`. -/
def limit_blocks_due_to_smem (smem smem_config : ℕ) (limits : Limits) : ℕ :=
  let my_smem_per_block := pyceil smem limits.smem_alloc_unit
  if 0 < my_smem_per_block then min limits.smem_per_sm smem_config / my_smem_per_block
  else limits.block_per_sm

/-- `compute_warp_occupancy(tpb, reg, smem, smem_config, limits)`.  The
guards, in the source's evaluation order, are the places where the Python
code raises: the granularity assert; `ceil(tpb / thread_per_warp)` with a
zero warp size; `ceil(smem, 0)`; `floor(warp_per_sm / 0)` when
`my_warp_per_block = 0`; `ceil(reg * w, 0)`; the division by
`ceil(reg * w, reg_alloc_unit) = 0` — which happens exactly when `reg = 0`,
because `c39` is evaluated before the `reg > 0` test; `floor(_, 0)` when
`warp_alloc_gran = 0`; and the final occupancy division by
`warp_per_sm = 0`. -/
def compute_warp_occupancy (tpb reg smem smem_config : ℕ) (limits : Limits) :
    Option (Frac × Factor) :=
  if limits.reg_alloc_gran ≠ RegAllocGran.warp then none
  else if limits.thread_per_warp = 0 then none
  else if limits.smem_alloc_unit = 0 then none
  else if my_warp_per_block tpb limits.thread_per_warp = 0 then none
  else if limits.reg_alloc_unit = 0 then none
  else if pyceil (reg * limits.thread_per_warp) limits.reg_alloc_unit = 0 then none
  else if limits.warp_alloc_gran = 0 then none
  else if h : limits.warp_per_sm = 0 then none
  else
    let bw := limit_blocks_due_to_warps tpb limits
    let br := limit_blocks_due_to_regs tpb reg limits
    let bs := limit_blocks_due_to_smem smem smem_config limits
    let active := min bs (min bw br)
    let factor :=
      if active = bw then Factor.warps
      else if active = br then Factor.regs
      else Factor.smem
    some (⟨active * my_warp_per_block tpb limits.thread_per_warp,
            ⟨limits.warp_per_sm, Nat.pos_of_ne_zero h⟩⟩,
          factor)

/-- The table built by `warp_occupancy`: kernel tpb ↦ (occupancy, factor),
in sweep order (keys are distinct). -/
abbrev OccTable := List (ℕ × Frac × Factor)

/-- Python `range(start, stop, step)` for `step > 0`. -/
def pyRange (start stop step : ℕ) : List ℕ :=
  List.range' start ((stop - start + step - 1) / step) step

/-- `warp_occupancy(info, cc, smem_config)`.  Note: the source stores each
result under `if result:`, but `result` is always a non-empty tuple, hence
always truthy — zero-occupancy entries are stored too, despite the
docstring. -/
def warp_occupancy (info : Resources) (cc : ℕ × ℕ) (smem_config : ℕ) : Option OccTable :=
  match PHYSICAL_LIMITS cc with
  | none => none
  | some limits =>
    (pyRange limits.thread_per_warp limits.max_block_size limits.thread_per_warp).mapM
      fun tpb =>
        (compute_warp_occupancy tpb (info.reg.getD 0) (info.shared.getD 0)
            smem_config limits).map
          fun result => (tpb, result)

/-! ## AutoTuner ranking and selection -/

/-- Python 2 `int.__cmp__`. -/
def intCmp (x y : ℕ) : Int := if x < y then -1 else if y < x then 1 else 0

/-- `_cmp_occupancy((ao, at), (bo, bt))`: occupancy ascending, and on equal
occupancy `-1 * at.__cmp__(bt)` (thread-per-block descending). -/
def cmp_occupancy (a b : Frac × ℕ) : Int :=
  if Frac.lt a.1 b.1 then -1
  else if Frac.lt b.1 a.1 then 1
  else -1 * intCmp a.2 b.2

/-- The (total pre)order induced by `_cmp_occupancy`; Python's stable sort
with this comparator produces exactly the `occLE`-sorted permutation (two
elements compare equal only when occupancy values and tpb agree). -/
def occLE (a b : Frac × ℕ) : Prop := cmp_occupancy a b ≤ 0

instance : DecidableRel occLE :=
  fun a b => inferInstanceAs (Decidable (cmp_occupancy a b ≤ 0))

/-- `AutoTuner.closest(tpb)`: round tpb up to a warp multiple and read the
table; `none` is the KeyError of `self.table[tpb]`. -/
def closest (limits : Limits) (table : OccTable) (tpb : ℕ) : Option Frac :=
  (List.lookup (pyceil tpb limits.thread_per_warp) table).map fun e => e.1

/-- The `bin` list built by `AutoTuner.prefer`'s loop: for each candidate
in order, `closest` (whose KeyError aborts the whole call), keeping
`(occ, tpb)` when `occ > 0`. -/
def preferBin (limits : Limits) (table : OccTable) : List ℕ → Option (List (Frac × ℕ))
  | [] => some []
  | tpb :: rest =>
    match closest limits table tpb with
    | none => none
    | some occ =>
      if 0 < occ.num then (preferBin limits table rest).map fun bin => (occ, tpb) :: bin
      else preferBin limits table rest

/-- `AutoTuner.prefer(*tpblist)`: `sorted(bin, cmp=_cmp_occupancy)[-1][1]`,
or Python `None` (the inner `none`) when `bin` is empty; the outer `none`
is a raised KeyError. -/
def prefer (limits : Limits) (table : OccTable) (tpblist : List ℕ) : Option (Option ℕ) :=
  (preferBin limits table tpblist).map fun bin =>
    ((List.insertionSort occLE bin).getLast?).map fun p => p.2

/-- `self.by_occupancy = list(reversed(sorted(pairs, cmp=_cmp_occupancy)))`
over the table's `(occupancy, tpb)` pairs (dict iteration order is
immaterial: the comparator separates all distinct pairs). -/
def by_occupancy (table : OccTable) : List (Frac × ℕ) :=
  (List.insertionSort occLE (table.map fun e => (e.2.1, e.1))).reverse

/-- `AutoTuner.best() = self.by_occupancy[0][1]` (`none` = IndexError on an
empty ranking). -/
def best (table : OccTable) : Option ℕ :=
  (by_occupancy table).head?.map fun p => p.2

/-- Modelled from the spec refinement target for the limiting factor: the
first constraint in the fixed priority order warps, registers, shared
memory whose block count equals `active`, as the spec words it. -/
def spec_limiting_factor (bw br bs active : ℕ) : Option Factor :=
  (([(Factor.warps, bw), (Factor.regs, br), (Factor.smem, bs)].find?
      fun p => p.2 == active)).map fun p => p.1

/-! ## Concrete inputs used by the claim checks -/

/-- A kernel record using 20 registers. -/
def info20 : Resources := { reg := some 20 }

/-- A kernel record using 64 registers (more than CC 2.0's cap of 63). -/
def info64 : Resources := { reg := some 64 }

/-- The occupancy table for `info20` at capability (2,0). -/
def table20 : OccTable := (warp_occupancy info20 (2, 0) 49152).getD []

/-- The occupancy table for `info64` at capability (2,0): every entry has
zero occupancy. -/
def tableZero : OccTable := (warp_occupancy info64 (2, 0) 49152).getD []

/-- Two adjacent lead-line blocks for the same kernel (no separator line
between the first block's resource line and the second lead line). -/
def textAdjacent : List Char :=
  ("info : Function properties for foo\nused 40 registers\ninfo : Function properties for foo\nused 20 registers, 512 bytes smem").toList

/-- The same two blocks separated by a blank line. -/
def textSeparated : List Char :=
  ("info : Function properties for foo\nused 40 registers\n\ninfo : Function properties for foo\nused 20 registers, 512 bytes smem").toList

/-- A lead line as the very last line of the input. -/
def textLeadLast : List Char :=
  ("info : Function properties for foo").toList

/-- A lead line whose function name starts with a single quote but does not
end with one. -/
def textBadQuote : List Char :=
  ("info : Function properties for ".toList) ++ [squote] ++ ("foo".toList)

/-- A well-formed two-line report. -/
def textGood : List Char :=
  ("info : Function properties for foo\nused 3 registers").toList

/-- The resource record accumulated by a block run over a line sequence:
each line's comma clauses applied in order. -/
def blockFold (res : Resources) : List (List Char) → Resources
  | [] => res
  | ln :: rest => blockFold (applySections ln res).1 rest

/-- The block run started on `res` consumes this whole line sequence to the
end of input: every line before the last yields at least one matching
clause (otherwise the run would terminate and resume scanning); the last
line is always consumed, matching or not, because the following
`readline()` hits StopIteration. -/
def blockConsumesAll (res : Resources) : List (List Char) → Bool
  | [] => true
  | [_] => true
  | ln :: l2 :: rest =>
    (applySections ln res).2 && blockConsumesAll (applySections ln res).1 (l2 :: rest)

/-! ## Ordering facts for the ranking comparator -/

theorem Frac.le_of_lt {a b : Frac} (h : a.lt b) : a.le b := Nat.le_of_lt h

theorem Frac.cross_eq {a b : Frac} (h1 : ¬ a.lt b) (h2 : ¬ b.lt a) :
    a.num * (b.den : ℕ) = b.num * (a.den : ℕ) := by
  unfold Frac.lt at h1 h2; omega

theorem Frac.le_of_not_lt {a b : Frac} (h : ¬ b.lt a) : a.le b := by
  unfold Frac.lt at h; unfold Frac.le; omega

theorem Frac.lt_trans {a b c : Frac} (h1 : a.lt b) (h2 : b.lt c) : a.lt c := by
  unfold Frac.lt at *
  have hb : 0 < (b.den : ℕ) := b.den.2
  have k1 : a.num * (c.den : ℕ) * (b.den : ℕ) < c.num * (a.den : ℕ) * (b.den : ℕ) := by
    calc a.num * (c.den : ℕ) * (b.den : ℕ)
        = a.num * (b.den : ℕ) * (c.den : ℕ) := by ring
      _ < b.num * (a.den : ℕ) * (c.den : ℕ) := (Nat.mul_lt_mul_right c.den.2).mpr h1
      _ = b.num * (c.den : ℕ) * (a.den : ℕ) := by ring
      _ < c.num * (b.den : ℕ) * (a.den : ℕ) := (Nat.mul_lt_mul_right a.den.2).mpr h2
      _ = c.num * (a.den : ℕ) * (b.den : ℕ) := by ring
  exact Nat.lt_of_mul_lt_mul_right k1

theorem Frac.lt_of_lt_of_cross_eq {a b c : Frac} (h1 : a.lt b)
    (h2 : b.num * (c.den : ℕ) = c.num * (b.den : ℕ)) : a.lt c := by
  unfold Frac.lt at *
  have k1 : a.num * (c.den : ℕ) * (b.den : ℕ) < c.num * (a.den : ℕ) * (b.den : ℕ) := by
    calc a.num * (c.den : ℕ) * (b.den : ℕ)
        = a.num * (b.den : ℕ) * (c.den : ℕ) := by ring
      _ < b.num * (a.den : ℕ) * (c.den : ℕ) := (Nat.mul_lt_mul_right c.den.2).mpr h1
      _ = b.num * (c.den : ℕ) * (a.den : ℕ) := by ring
      _ = c.num * (b.den : ℕ) * (a.den : ℕ) := by rw [h2]
      _ = c.num * (a.den : ℕ) * (b.den : ℕ) := by ring
  exact Nat.lt_of_mul_lt_mul_right k1

theorem Frac.lt_of_cross_eq_of_lt {a b c : Frac}
    (h1 : a.num * (b.den : ℕ) = b.num * (a.den : ℕ)) (h2 : b.lt c) : a.lt c := by
  unfold Frac.lt at *
  have k1 : a.num * (c.den : ℕ) * (b.den : ℕ) < c.num * (a.den : ℕ) * (b.den : ℕ) := by
    calc a.num * (c.den : ℕ) * (b.den : ℕ)
        = a.num * (b.den : ℕ) * (c.den : ℕ) := by ring
      _ = b.num * (a.den : ℕ) * (c.den : ℕ) := by rw [h1]
      _ = b.num * (c.den : ℕ) * (a.den : ℕ) := by ring
      _ < c.num * (b.den : ℕ) * (a.den : ℕ) := (Nat.mul_lt_mul_right a.den.2).mpr h2
      _ = c.num * (a.den : ℕ) * (b.den : ℕ) := by ring
  exact Nat.lt_of_mul_lt_mul_right k1

theorem Frac.cross_eq_trans {a b c : Frac}
    (h1 : a.num * (b.den : ℕ) = b.num * (a.den : ℕ))
    (h2 : b.num * (c.den : ℕ) = c.num * (b.den : ℕ)) :
    a.num * (c.den : ℕ) = c.num * (a.den : ℕ) := by
  have k1 : a.num * (c.den : ℕ) * (b.den : ℕ) = c.num * (a.den : ℕ) * (b.den : ℕ) := by
    calc a.num * (c.den : ℕ) * (b.den : ℕ)
        = a.num * (b.den : ℕ) * (c.den : ℕ) := by ring
      _ = b.num * (a.den : ℕ) * (c.den : ℕ) := by rw [h1]
      _ = b.num * (c.den : ℕ) * (a.den : ℕ) := by ring
      _ = c.num * (b.den : ℕ) * (a.den : ℕ) := by rw [h2]
      _ = c.num * (a.den : ℕ) * (b.den : ℕ) := by ring
  exact Nat.eq_of_mul_eq_mul_right b.den.2 k1

theorem occLE_iff (a b : Frac × ℕ) :
    occLE a b ↔
      (Frac.lt a.1 b.1 ∨ (¬ Frac.lt a.1 b.1 ∧ ¬ Frac.lt b.1 a.1 ∧ b.2 ≤ a.2)) := by
  unfold occLE cmp_occupancy intCmp
  split_ifs with h1 h2 h3 h4 <;> simp_all

theorem occLE_refl (a : Frac × ℕ) : occLE a a := by
  rw [occLE_iff]
  exact Or.inr ⟨fun h => absurd h (lt_irrefl _), fun h => absurd h (lt_irrefl _), le_refl _⟩

instance : IsTotal (Frac × ℕ) occLE :=
  ⟨fun a b => by
    rw [occLE_iff, occLE_iff]
    by_cases h1 : Frac.lt a.1 b.1
    · exact Or.inl (Or.inl h1)
    · by_cases h2 : Frac.lt b.1 a.1
      · exact Or.inr (Or.inl h2)
      · rcases Nat.le_total b.2 a.2 with h3 | h3
        · exact Or.inl (Or.inr ⟨h1, h2, h3⟩)
        · exact Or.inr (Or.inr ⟨h2, h1, h3⟩)⟩

instance : IsTrans (Frac × ℕ) occLE :=
  ⟨fun a b c hab hbc => by
    rw [occLE_iff] at *
    rcases hab with h1 | ⟨h1, h1', htp1⟩ <;> rcases hbc with h2 | ⟨h2, h2', htp2⟩
    · exact Or.inl (Frac.lt_trans h1 h2)
    · exact Or.inl (Frac.lt_of_lt_of_cross_eq h1 (Frac.cross_eq h2 h2'))
    · exact Or.inl (Frac.lt_of_cross_eq_of_lt (Frac.cross_eq h1 h1') h2)
    · have he := Frac.cross_eq_trans (Frac.cross_eq h1 h1') (Frac.cross_eq h2 h2')
      refine Or.inr ⟨?_, ?_, htp2.trans htp1⟩
      · unfold Frac.lt; rw [he]; exact lt_irrefl _
      · unfold Frac.lt; rw [he]; exact lt_irrefl _⟩

/-! ## Last element of the sorted candidate list -/

theorem mem_of_getLastOpt {α : Type} : ∀ {l : List α} {p : α}, l.getLast? = some p → p ∈ l := by
  intro l
  induction l with
  | nil => intro p hp; simp at hp
  | cons a t ih =>
    intro p hp
    cases t with
    | nil =>
      simp [List.getLast?] at hp
      simp [hp]
    | cons b t2 =>
      rw [List.getLast?_cons_cons] at hp
      exact List.mem_cons_of_mem a (ih hp)

theorem sorted_getLast_ub :
    ∀ {l : List (Frac × ℕ)}, l.Sorted occLE → ∀ {p : Frac × ℕ}, l.getLast? = some p →
      ∀ q ∈ l, occLE q p := by
  intro l
  induction l with
  | nil => intro _ p hp; simp at hp
  | cons a t ih =>
    intro hs p hp q hq
    rcases List.sorted_cons.mp hs with ⟨ha, ht⟩
    cases t with
    | nil =>
      simp [List.getLast?] at hp
      simp at hq
      subst hp
      subst hq
      exact occLE_refl _
    | cons b t2 =>
      rw [List.getLast?_cons_cons] at hp
      rcases List.mem_cons.mp hq with rfl | hq2
      · exact ha p (mem_of_getLastOpt hp)
      · exact ih ht hp q hq2

theorem insertionSort_last_max (bin : List (Frac × ℕ)) (hne : bin ≠ []) :
    ∃ p, (List.insertionSort occLE bin).getLast? = some p ∧ p ∈ bin ∧
      ∀ q ∈ bin, occLE q p := by
  have hperm := List.perm_insertionSort occLE bin
  have hsne : List.insertionSort occLE bin ≠ [] := by
    intro h0
    exact hne ((h0 ▸ hperm : ([] : List (Frac × ℕ)).Perm bin).symm.eq_nil)
  obtain ⟨p, hp⟩ := Option.isSome_iff_exists.mp (List.getLast?_isSome.mpr hsne)
  exact ⟨p, hp, hperm.subset (mem_of_getLastOpt hp),
    fun q hq =>
      sorted_getLast_ub (List.sorted_insertionSort occLE bin) hp q
        ((List.mem_insertionSort occLE).mpr hq)⟩

/-! ## Behaviour of the prefer loop -/

theorem preferBin_isSome (limits : Limits) (table : OccTable) :
    ∀ cands : List ℕ, (∀ t ∈ cands, (closest limits table t).isSome = true) →
      (preferBin limits table cands).isSome = true := by
  intro cands
  induction cands with
  | nil => intro _; simp [preferBin]
  | cons t ts ih =>
    intro h
    obtain ⟨occ, hocc⟩ :=
      Option.isSome_iff_exists.mp (h t (List.mem_cons_self t ts))
    have hrest := ih fun x hx => h x (List.mem_cons_of_mem t hx)
    obtain ⟨bin, hbin⟩ := Option.isSome_iff_exists.mp hrest
    by_cases hpos : 0 < occ.num
    · simp [preferBin, hocc, hpos, hbin]
    · simp [preferBin, hocc, hpos, hbin]

theorem preferBin_all_zero (limits : Limits) (table : OccTable) :
    ∀ cands : List ℕ,
      (∀ t ∈ cands, ((closest limits table t).all fun o => decide (o.num = 0)) = true) →
      (∀ t ∈ cands, (closest limits table t).isSome = true) →
      preferBin limits table cands = some [] := by
  intro cands
  induction cands with
  | nil => intro _ _; simp [preferBin]
  | cons t ts ih =>
    intro hz h
    obtain ⟨occ, hocc⟩ :=
      Option.isSome_iff_exists.mp (h t (List.mem_cons_self t ts))
    have hzt := hz t (List.mem_cons_self t ts)
    rw [hocc] at hzt
    simp [Option.all] at hzt
    have hrest := ih (fun x hx => hz x (List.mem_cons_of_mem t hx))
      (fun x hx => h x (List.mem_cons_of_mem t hx))
    simp [preferBin, hocc, hzt, hrest]

/-! ## The parser never raises except on a bad quoted name -/

theorem runParse_ne_none :
    ∀ lines : List (List Char),
      (∀ ln ∈ lines, ((matchLead ln).all fun rem => (parse_function_name rem).isSome) = true) →
      ∀ st, runParse st lines ≠ none := by
  intro lines
  induction lines with
  | nil =>
    intro _ st
    cases st <;> simp [runParse]
  | cons ln rest ih =>
    intro H st
    have Hrest : ∀ l ∈ rest,
        ((matchLead l).all fun rem => (parse_function_name rem).isSome) = true :=
      fun l hl => H l (List.mem_cons_of_mem ln hl)
    have Hln := H ln (List.mem_cons_self ln rest)
    cases st with
    | scan =>
      cases hml : matchLead ln with
      | none => simpa [runParse, hml] using ih Hrest ParserState.scan
      | some rem =>
        rw [hml] at Hln
        simp [Option.all] at Hln
        obtain ⟨fname, hpn⟩ := Option.isSome_iff_exists.mp Hln
        cases rest with
        | nil => simp [runParse, hml, hpn]
        | cons l2 r2 =>
          simpa [runParse, hml, hpn] using
            ih Hrest (ParserState.block fname Resources.empty)
    | block f res =>
      cases rest with
      | nil => simp [runParse]
      | cons l2 r2 =>
        by_cases hm : (applySections ln res).2 = true
        · simpa [runParse, hm] using
            ih Hrest (ParserState.block f (applySections ln res).1)
        · have h2 := ih Hrest ParserState.scan
          simp only [runParse] at h2
          simpa [runParse, hm] using h2

/-! ## Monotonicity facts for the register constraint -/

theorem pyceil_mono (s : ℕ) {x y : ℕ} (h : x ≤ y) : pyceil x s ≤ pyceil y s :=
  Nat.mul_le_mul_left s (Nat.div_le_div_right (by omega))

theorem pyceil_pos {x s : ℕ} (hs : 0 < s) (hx : 0 < x) : 0 < pyceil x s := by
  unfold pyceil
  exact Nat.mul_pos hs ((Nat.one_le_div_iff hs).mpr (by omega))

theorem c39_antitone (limits : Limits) {r1 r2 : ℕ} (hw : 0 < limits.thread_per_warp)
    (hu : 0 < limits.reg_alloc_unit) (h1 : 0 < r1) (h12 : r1 ≤ r2) :
    c39 r2 limits ≤ c39 r1 limits := by
  unfold c39
  apply Nat.mul_le_mul_left
  apply Nat.div_le_div_right
  exact Nat.div_le_div_left (pyceil_mono _ (Nat.mul_le_mul_right _ h12))
    (pyceil_pos hu (Nat.mul_pos h1 hw))

/-! ## Claim checks -/

/-- C1: claimed behaviour: with `registers_per_thread = 0` the register
constraint is unconstrained and `warp_occupancy` succeeds for a kernel with
no register clause.  The code instead evaluates `c39`'s division by
`ceil(0 * thread_per_warp, reg_alloc_unit) = 0` before the `reg > 0` test,
raising ZeroDivisionError: both the sweep over an empty resource record and
a direct call with `reg = 0` raise (`= none`), so the intended
`blocks_by_regs = blocks_per_sm` branch is dead code. -/
theorem c1_reg_zero_raises :
    warp_occupancy Resources.empty (2, 0) 49152 = none
    ∧ compute_warp_occupancy 128 0 0 49152 LIMITS_CC_20 = none := by
  constructor
  · decide
  · decide

/-- C2: claimed invariant: every stored entry has `0 < occupancy ≤ 1` and
zero-occupancy block sizes are excluded.  The code stores entries under
`if result:`, but `result` is a non-empty tuple and always truthy, so for a
kernel using 64 registers (above CC 2.0's cap of 63) the table maps
`tpb = 32` to occupancy `0/48` with factor `regs` — a stored entry of
occupancy zero, contradicting the claim and the function's docstring. -/
theorem c2_zero_occupancy_entry_stored :
    (warp_occupancy info64 (2, 0) 49152).bind (List.lookup 32) =
      some (⟨0, 48⟩, Factor.regs)
    ∧ Frac.val ⟨0, 48⟩ = 0 := by
  constructor
  · decide
  · unfold Frac.val
    norm_num

/-- C3 counterexample: in the table for a 20-register kernel at capability
(2,0), the candidates 192 and 256 both resolve to occupancy 48/48 (the
maximal value), yet `prefer` returns 192 — the smallest tied tpb — not the
claimed largest one, 256. -/
theorem c3_counterexample :
    prefer LIMITS_CC_20 table20 [192, 256] = some (some 192)
    ∧ prefer LIMITS_CC_20 table20 [192, 256] ≠ some (some 256)
    ∧ closest LIMITS_CC_20 table20 192 = some ⟨48, 48⟩
    ∧ closest LIMITS_CC_20 table20 256 = some ⟨48, 48⟩ := by
  refine ⟨by decide, by decide, by decide, by decide⟩

/-- C4 counterexample: the rounded tpb 1024 is absent from the table (the
sweep stops below `max_block_size`), and `prefer` then raises the KeyError
of `self.table[tpb]` (`= none`) instead of discarding the candidate and
returning the explicit empty result (`some none`). -/
theorem c4_counterexample :
    prefer LIMITS_CC_20 table20 [1024] = none
    ∧ prefer LIMITS_CC_20 table20 [1024] ≠ some none := by
  refine ⟨by decide, by decide⟩

/-- C5 counterexample: a lead line whose function name starts with a single
quote but does not end with one trips the assert in `parse_function_name`,
so the parser raises (`= none`) rather than treating the line as a
non-match. -/
theorem c5_counterexample : parse_compile_info textBadQuote = none := by decide

/-- C6: worked example at capability (2,0) with `tpb = 128`,
`registers_per_thread = 20`, `shared_mem_bytes = 2048`, shared-memory
configuration 49152: `active_blocks = 8`, limiting factor warps, occupancy
`8 * 4 / 48 = 2/3`. -/
theorem c6_worked_example :
    compute_warp_occupancy 128 20 2048 49152 LIMITS_CC_20 =
      some (⟨32, 48⟩, Factor.warps)
    ∧ min (limit_blocks_due_to_smem 2048 49152 LIMITS_CC_20)
        (min (limit_blocks_due_to_warps 128 LIMITS_CC_20)
          (limit_blocks_due_to_regs 128 20 LIMITS_CC_20)) = 8
    ∧ Frac.val ⟨32, 48⟩ = 2 / 3 := by
  refine ⟨by decide, by decide, ?_⟩
  unfold Frac.val
  norm_num

/-- C9 counterexample: with the two lead-line blocks for `foo` adjacent
(the second lead line directly follows the first block's resource line),
the inner loop consumes the second lead line as the first block's
terminator and reads past it, so only the first record is yielded: the
final map gives `foo` 40 registers, not the claimed last-occurrence record
of 20 registers and 512 bytes smem. -/
theorem c9_counterexample :
    (parse_compile_info textAdjacent).map (fun l => dictGet l ("foo".toList)) =
      some (some { reg := some 40 })
    ∧ (parse_compile_info textAdjacent).map (fun l => dictGet l ("foo".toList)) ≠
      some (some { reg := some 20, shared := some 512 }) := by
  refine ⟨by decide, by decide⟩

/-- C9 amended: `dict(...)` keeps the record of the last block the parser
actually recognizes, replacing earlier records whole; when the two `foo`
blocks are separated by a non-matching line, both are yielded and the final
map holds exactly the second record, 20 registers and 512 bytes smem. -/
theorem c9_last_recognized_block_wins :
    parse_compile_info textSeparated =
      some [("foo".toList, { reg := some 40 }),
            ("foo".toList, { reg := some 20, shared := some 512 })]
    ∧ (parse_compile_info textSeparated).map (fun l => dictGet l ("foo".toList)) =
      some (some { reg := some 20, shared := some 512 }) := by
  refine ⟨by decide, by decide⟩

/-- C10 counterexample: when the lead line is the very last line of the
input, the `ln = readline()` that sits between `parse_function_name` and
the yielding `try/finally` raises StopIteration, so the kernel is dropped:
the parse yields no entry at all, not an empty resource record. -/
theorem c10_counterexample : parse_compile_info textLeadLast = some [] := by decide

/-- C3 amended: among candidates that tie at the maximal occupancy,
`prefer` returns the smallest tpb — the same tie-break as `best()`, not the
opposite one: the returned element of the bin is an `occLE`-upper bound, so
its occupancy is maximal and its tpb minimal among equal-occupancy
candidates; likewise the head of the `by_occupancy` ranking (what `best()`
returns) has maximal occupancy and minimal tpb among ties. -/
theorem c3_prefer_and_best_tie_smallest (limits : Limits) (table : OccTable)
    (cands : List ℕ) (bin : List (Frac × ℕ))
    (hbin : preferBin limits table cands = some bin) (hne : bin ≠ []) :
    (∃ p ∈ bin, prefer limits table cands = some (some p.2)
      ∧ (∀ q ∈ bin, Frac.le q.1 p.1)
      ∧ (∀ q ∈ bin, Frac.le p.1 q.1 → p.2 ≤ q.2))
    ∧ (∀ b, (by_occupancy table).head? = some b →
        ∀ e ∈ table, Frac.le e.2.1 b.1 ∧ (Frac.le b.1 e.2.1 → b.2 ≤ e.1)) := by
  obtain ⟨p, hlast, hmem, hub⟩ := insertionSort_last_max bin hne
  constructor
  · refine ⟨p, hmem, ?_, ?_, ?_⟩
    · unfold prefer
      rw [hbin]
      simp [hlast]
    · intro q hq
      rcases (occLE_iff q p).mp (hub q hq) with h | ⟨h1, h2, h3⟩
      · exact Frac.le_of_lt h
      · exact Frac.le_of_not_lt h2
    · intro q hq hle
      rcases (occLE_iff q p).mp (hub q hq) with h | ⟨h1, h2, h3⟩
      · exact absurd hle (by unfold Frac.lt at h; unfold Frac.le; omega)
      · exact h3
  · intro b hb e he
    unfold by_occupancy at hb
    rw [List.head?_reverse] at hb
    have hub2 :=
      sorted_getLast_ub
        (List.sorted_insertionSort occLE (table.map fun e => (e.2.1, e.1))) hb
    have hm : ((e.2.1, e.1) : Frac × ℕ) ∈
        List.insertionSort occLE (table.map fun e => (e.2.1, e.1)) := by
      rw [List.mem_insertionSort]
      exact List.mem_map_of_mem _ he
    have h := (occLE_iff (e.2.1, e.1) b).mp (hub2 _ hm)
    dsimp only at h
    constructor
    · rcases h with h | ⟨h1, h2, h3⟩
      · exact Frac.le_of_lt h
      · exact Frac.le_of_not_lt h2
    · intro hle
      rcases h with h | ⟨h1, h2, h3⟩
      · exact absurd hle (by unfold Frac.lt at h; unfold Frac.le; omega)
      · exact h3

/-- C3 amended, witness: the tie between candidates 192 and 256 at
occupancy 48/48 in `table20`. -/
theorem c3_witness :
    (∃ p ∈ [((⟨48, 48⟩ : Frac), 192), (⟨48, 48⟩, 256)],
        prefer LIMITS_CC_20 table20 [192, 256] = some (some p.2)
        ∧ (∀ q ∈ [((⟨48, 48⟩ : Frac), 192), (⟨48, 48⟩, 256)], Frac.le q.1 p.1)
        ∧ (∀ q ∈ [((⟨48, 48⟩ : Frac), 192), (⟨48, 48⟩, 256)],
            Frac.le p.1 q.1 → p.2 ≤ q.2))
    ∧ (∀ b, (by_occupancy table20).head? = some b →
        ∀ e ∈ table20, Frac.le e.2.1 b.1 ∧ (Frac.le b.1 e.2.1 → b.2 ≤ e.1)) :=
  c3_prefer_and_best_tie_smallest LIMITS_CC_20 table20 [192, 256]
    [(⟨48, 48⟩, 192), (⟨48, 48⟩, 256)] (by decide) (by decide)

/-- C4 amended: `prefer` discards candidates with zero occupancy and, when
every candidate resolves in the table, never raises; if moreover every
candidate's occupancy is zero it returns the explicit empty result
(Python `None`).  A candidate whose rounded tpb is absent from the table,
however, raises KeyError instead of being discarded. -/
theorem c4_prefer_total_without_missing_keys (limits : Limits) (table : OccTable)
    (cands : List ℕ)
    (hall : ∀ t ∈ cands, (closest limits table t).isSome = true) :
    prefer limits table cands ≠ none
    ∧ ((∀ t ∈ cands,
          ((closest limits table t).all fun o => decide (o.num = 0)) = true) →
        prefer limits table cands = some none) := by
  constructor
  · obtain ⟨bin, hbin⟩ :=
      Option.isSome_iff_exists.mp (preferBin_isSome limits table cands hall)
    unfold prefer
    rw [hbin]
    simp
  · intro hz
    have h0 := preferBin_all_zero limits table cands hz hall
    unfold prefer
    rw [h0]
    simp

/-- C4 amended, witness: in the all-zero-occupancy table of a 64-register
kernel, the candidate 64 resolves (occupancy 0/48), is discarded, and
`prefer` returns the explicit empty result. -/
theorem c4_witness :
    prefer LIMITS_CC_20 tableZero [64] ≠ none
    ∧ ((∀ t ∈ [64],
          ((closest LIMITS_CC_20 tableZero t).all fun o => decide (o.num = 0)) = true) →
        prefer LIMITS_CC_20 tableZero [64] = some none) :=
  c4_prefer_total_without_missing_keys LIMITS_CC_20 tableZero [64] (by decide)

/-- C5 amended: the parser raises on no input except a lead line whose
stripped function name begins with a single quote and does not end with
one; whenever every lead line's name parses, `parse_compile_info` never
raises — unmatched lines and clauses are simply non-matches. -/
theorem c5_no_raise_for_wellformed_lead_names (text : List Char)
    (H : ∀ ln ∈ splitlines text,
      ((matchLead ln).all fun rem => (parse_function_name rem).isSome) = true) :
    parse_compile_info text ≠ none := by
  unfold parse_compile_info gen_parse_compile_info
  exact runParse_ne_none (splitlines text) H ParserState.scan

/-- C5 amended, witness: a report with one well-formed lead line parses
without raising. -/
theorem c5_witness : parse_compile_info textGood ≠ none :=
  c5_no_raise_for_wellformed_lead_names textGood (by decide)

/-- C7: holding block size, shared memory, limits and the shared-memory
configuration fixed, increasing `registers_per_thread` never increases
`blocks_by_regs`, on the domain where the computation is defined
(`0 < r1`: at zero registers the code raises; positive warp size and
register allocation unit, as in every built-in limits table). -/
theorem c7_blocks_by_regs_antitone (limits : Limits) (tpb r1 r2 : ℕ)
    (hw : 0 < limits.thread_per_warp) (hu : 0 < limits.reg_alloc_unit)
    (h1 : 0 < r1) (h12 : r1 ≤ r2) :
    limit_blocks_due_to_regs tpb r2 limits ≤ limit_blocks_due_to_regs tpb r1 limits := by
  unfold limit_blocks_due_to_regs
  by_cases hb2 : r2 > limits.reg_per_thread
  · rw [if_pos hb2]
    exact Nat.zero_le _
  · have hb1 : ¬ r1 > limits.reg_per_thread := by omega
    have h2 : r2 > 0 := by omega
    rw [if_neg hb2, if_neg hb1, if_pos h1, if_pos h2]
    exact Nat.div_le_div_right (c39_antitone limits hw hu h1 h12)

/-- C7 witness: registers 20 versus 40 at `tpb = 128` on CC 2.0. -/
theorem c7_witness :
    limit_blocks_due_to_regs 128 40 LIMITS_CC_20 ≤
      limit_blocks_due_to_regs 128 20 LIMITS_CC_20 :=
  c7_blocks_by_regs_antitone LIMITS_CC_20 128 20 40 (by decide) (by decide)
    (by decide) (by decide)

/-- On a line sequence fully consumed by a block run, `runParse` yields the
kernel with the folded record: the clauses parsed before end of input. -/
theorem runBlock_eof_yields :
    ∀ (lines : List (List Char)) (f : List Char) (res : Resources),
      blockConsumesAll res lines = true →
      runParse (ParserState.block f res) lines = some [(f, blockFold res lines)] := by
  intro lines
  induction lines with
  | nil => intro f res _; simp [runParse, blockFold]
  | cons ln rest ih =>
    intro f res hc
    cases rest with
    | nil => simp [runParse, blockFold]
    | cons l2 r2 =>
      rw [blockConsumesAll, Bool.and_eq_true] at hc
      have hrec := ih f (applySections ln res).1 hc.2
      simpa [runParse, blockFold, hc.1] using hrec

/-- C10 amended: whenever the input ends while a kernel block is being
parsed — a lead line followed by any non-empty line sequence that the block
run consumes to the end of input — the kernel is still yielded, with
exactly the resource clauses parsed before the end of input (possibly an
empty record); but a lead line that is the very last line of the input
yields nothing: that kernel is dropped. -/
theorem c10_truncated_block_still_yields :
    (∀ (leadLn rem fname : List Char) (lines : List (List Char)),
        matchLead leadLn = some rem → parse_function_name rem = some fname →
        lines ≠ [] → blockConsumesAll Resources.empty lines = true →
        runParse ParserState.scan (leadLn :: lines) =
          some [(fname, blockFold Resources.empty lines)])
    ∧ (∀ leadLn rem fname : List Char,
        matchLead leadLn = some rem → parse_function_name rem = some fname →
        runParse ParserState.scan [leadLn] = some []) := by
  constructor
  · intro leadLn rem fname lines hlead hname hne hc
    cases lines with
    | nil => exact absurd rfl hne
    | cons l2 r2 =>
      have hblock := runBlock_eof_yields (l2 :: r2) fname Resources.empty hc
      simpa [runParse, hlead, hname] using hblock
  · intro leadLn rem fname hlead hname
    simp [runParse, hlead, hname]

/-- C10 amended, witness: a lead line for `foo` followed by two resource
lines cut off by end of input yields `foo` with both lines' clauses; the
lead line alone yields nothing. -/
theorem c10_witness :
    runParse ParserState.scan
        [("info : Function properties for foo").toList, ("used 7 registers").toList,
          ("8 bytes stack, 16 bytes lmem").toList] =
      some [(("foo").toList,
        blockFold Resources.empty
          [("used 7 registers").toList, ("8 bytes stack, 16 bytes lmem").toList])]
    ∧ runParse ParserState.scan [("info : Function properties for foo").toList] =
      some [] :=
  ⟨c10_truncated_block_still_yields.1 (("info : Function properties for foo").toList)
      (("foo").toList) (("foo").toList)
      [("used 7 registers").toList, ("8 bytes stack, 16 bytes lmem").toList]
      (by decide) (by decide) (by decide) (by decide),
    c10_truncated_block_still_yields.2 (("info : Function properties for foo").toList)
      (("foo").toList) (("foo").toList) (by decide) (by decide)⟩

set_option maxHeartbeats 2000000 in
/-- C8: for every input on which the occupancy computation returns a
result, the reported limiting factor is the first constraint in the fixed
priority order — warps, then registers, then shared memory — whose block
count equals `active_blocks` (the spec-side selection is
`spec_limiting_factor`); in the code's final `else` branch the shared-memory
count necessarily equals the minimum, so the refinement holds on ties
too. -/
theorem c8_limiting_factor_priority (tpb reg smem smem_config : ℕ) (limits : Limits)
    (r : Frac × Factor)
    (h : compute_warp_occupancy tpb reg smem smem_config limits = some r) :
    spec_limiting_factor (limit_blocks_due_to_warps tpb limits)
      (limit_blocks_due_to_regs tpb reg limits)
      (limit_blocks_due_to_smem smem smem_config limits)
      (min (limit_blocks_due_to_smem smem smem_config limits)
        (min (limit_blocks_due_to_warps tpb limits)
          (limit_blocks_due_to_regs tpb reg limits))) = some r.2 := by
  unfold compute_warp_occupancy at h
  set bw := limit_blocks_due_to_warps tpb limits with hbw
  set br := limit_blocks_due_to_regs tpb reg limits with hbr
  set bs := limit_blocks_due_to_smem smem smem_config limits with hbs
  split_ifs at h with g1 g2 g3 g4 g5 g6 g7 g8
  simp only [Option.some.injEq] at h
  rw [← h]
  dsimp only
  by_cases hw1 : min bs (min bw br) = bw
  · simp [spec_limiting_factor, hw1]
  · by_cases hr1 : min bs (min bw br) = br
    · have hne : (bw == br) = false := by
        apply beq_eq_false_iff_ne.mpr
        intro hE
        exact hw1 (by rw [hr1, hE])
      have hbrbw : ¬ (br = bw) := fun hE => hw1 (hr1.trans hE)
      simp [spec_limiting_factor, List.find?, hr1, hne, hw1, hbrbw]
    · have hbs1 : min bs (min bw br) = bs := by
        rcases min_choice bs (min bw br) with hc | hc
        · exact hc
        · rcases min_choice bw br with hc2 | hc2
          · exact absurd (hc.trans hc2) hw1
          · exact absurd (hc.trans hc2) hr1
      have hfw : (bw == bs) = false := by
        apply beq_eq_false_iff_ne.mpr
        intro hE
        exact hw1 (hbs1.trans hE.symm)
      have hfr : (br == bs) = false := by
        apply beq_eq_false_iff_ne.mpr
        intro hE
        exact hr1 (hbs1.trans hE.symm)
      have h1n : ¬ (bs = bw) := fun hE => hw1 (hbs1.trans hE)
      have h2n : ¬ (bs = br) := fun hE => hr1 (hbs1.trans hE)
      simp [spec_limiting_factor, List.find?, hbs1, hfw, hfr, h1n, h2n]

/-- C8 witness: the worked example input of C6, where all three counts are
8, 12, 24 and the warps constraint is the reported minimum. -/
theorem c8_witness :
    spec_limiting_factor (limit_blocks_due_to_warps 128 LIMITS_CC_20)
      (limit_blocks_due_to_regs 128 20 LIMITS_CC_20)
      (limit_blocks_due_to_smem 2048 49152 LIMITS_CC_20)
      (min (limit_blocks_due_to_smem 2048 49152 LIMITS_CC_20)
        (min (limit_blocks_due_to_warps 128 LIMITS_CC_20)
          (limit_blocks_due_to_regs 128 20 LIMITS_CC_20))) =
      some Factor.warps :=
  c8_limiting_factor_priority 128 20 2048 49152 LIMITS_CC_20
    (⟨32, 48⟩, Factor.warps) (by decide)
